import Mathlib

/-!
Verification of the incremental image-regeneration cache in
`doc/sphinxext/altair_ext/altairgallery.py` (function `make_images` and its
helpers).  The Python code is shallowly embedded: the mutable loop state of
`make_images` becomes an explicit `PassState` record threaded through a fold
over the example list, filesystem effects (image files written, placeholder
copies, thumbnail creations, renderer invocations) are recorded as event
lists, and exceptions become an `Except` error type.
-/

namespace AltairGallery

/-- Python-dict lookup on an association list: `m.get(k)` semantics. -/
def dictFind : List (String × String) → String → Option String
  | [], _ => none
  | p :: rest, k => if p.1 = k then some p.2 else dictFind rest k

/-- Python `m.get(k, dflt)`. -/
def dictGet (m : List (String × String)) (k dflt : String) : String :=
  (dictFind m k).getD dflt

/-- Python `m[k] = v`: replace the value at an existing key, else append. -/
def dictSet : List (String × String) → String → String → List (String × String)
  | [], k, v => [(k, v)]
  | p :: rest, k, v => if p.1 = k then (k, v) :: rest else p :: dictSet rest k v

/-- Add a path to the set of existing files (idempotent, sets of paths). -/
def addFile (fs : List String) (f : String) : List String :=
  if f ∈ fs then fs else fs ++ [f]

/-- Modelled from the spec: `dict_hash` is imported from `altair_ext/utils.py`,
which is not among the provided sources.  The spec requires a deterministic
content hash of the example's specification document that is order-independent
with respect to key ordering.  We model the specification document as its list
of key/value pairs and the hash as the canonical (sorted) serialization of
those pairs; the underlying digest function is opaque and is taken as the
identity on the canonical serialization. -/
def dict_hash (spec : List (String × String)) : String :=
  String.join (List.insertionSort (· ≤ ·)
    (spec.map (fun p => p.1 ++ "=" ++ p.2 ++ ";")))

/-- One example record as consumed by `make_images`: a name, a specification
document, and the optional `galleryParameters` dict (absent = `[]`, mirroring
`example.get('galleryParameters', {})`). -/
structure GalleryExample where
  name : String
  spec : List (String × String)
  galleryParameters : List (String × String)
deriving DecidableEq, Repr

/-- Python `x.strip('%')`: remove leading and trailing `'%'` characters. -/
def stripPct (x : String) : String :=
  ⟨((x.data.dropWhile (· == '%')).reverse.dropWhile (· == '%')).reverse⟩

/-- Decimal digit value of a character. -/
def digitToNat (c : Char) : Option Nat :=
  if '0' ≤ c ∧ c ≤ '9' then some (c.toNat - '0'.toNat) else none

/-- Accumulate a decimal numeral. -/
def digitsToNatAux : Nat → List Char → Option Nat
  | acc, [] => some acc
  | acc, c :: cs =>
    match digitToNat c with
    | some d => digitsToNatAux (acc * 10 + d) cs
    | none => none

/-- Parse a non-empty all-digit list. -/
def digitsToNat (l : List Char) : Option Nat :=
  if l = [] then none else digitsToNatAux 0 l

/-- Python `int(s)` on a decimal numeral with optional minus sign;
`none` models the `ValueError` raised on anything else. -/
def parseInt (s : String) : Option Int :=
  match s.data with
  | '-' :: rest => (digitsToNat rest).map (fun n => -(n : Int))
  | l => (digitsToNat l).map (fun n => (n : Int))

/-- The inline lambda `convert_pct = lambda x: 0.01 * int(x.strip('%'))`.
`int(...)` raises `ValueError` on non-numeric input, modelled by `none`;
the numeric value is kept exactly as a rational. -/
def convert_pct (x : String) : Option ℚ :=
  (parseInt (stripPct x)).map (fun n => (n : ℚ) / 100)

/-- Zoom derivation for the thumbnail step (lines 190-195):
`zoom = params.get('backgroundSize', '100%')`; the alias `'contains'` maps to
`'100%'`; then `convert_pct` is applied. -/
def zoomOf (ex : GalleryExample) : Option ℚ :=
  convert_pct
    (if dictGet ex.galleryParameters "backgroundSize" "100%" = "contains"
     then "100%"
     else dictGet ex.galleryParameters "backgroundSize" "100%")

/-- The mutable state of one `make_images` pass, plus event logs.
`hashes` is the in-memory ledger, `can_save` the renderer-availability flag,
`files` the set of image files currently existing in the image directory.
`renders`, `copies` and `thumbs` record renderer invocations
(`chart.savechart`), placeholder copies (`shutil.copyfile`) and thumbnail
creations (`create_thumbnail`). -/
structure PassState where
  hashes : List (String × String)
  can_save : Bool
  files : List String
  renders : List String
  copies : List String
  thumbs : List (String × ℚ)
deriving DecidableEq, Repr

/-- Exceptions that can escape `make_images`. -/
inductive PassError
  | ledgerCorrupt
  | badPercent
deriving DecidableEq, Repr

/-- State of the persisted hash-ledger file `_image_hashes.json` before the
pass: absent, present with parseable contents, or present but
corrupt/unreadable (so that `json.load` raises). -/
inductive LedgerFile
  | absent
  | valid (entries : List (String × String))
  | corrupt
deriving DecidableEq, Repr

/-- Lines 158-162: `if os.path.exists(hash_file): hashes = json.load(f)
else: hashes = {}`.  Only absence is handled; a present-but-corrupt file
raises out of `json.load`. -/
def loadLedger : LedgerFile → Except PassError (List (String × String))
  | .absent => .ok []
  | .valid e => .ok e
  | .corrupt => .error .ledgerCorrupt

/-- Lines 174-187: the render-or-fallback phase for one example.
`rk name` tells whether the external `chart.savechart` call would succeed
for this example.  On failure `can_save` flips to `false` and the
placeholder is copied only when no image file exists at the target path;
the same existence guard protects the renderer-unavailable branch. -/
def renderPhase (rk : String → Bool) (st : PassState)
    (name filename spec_hash : String) : PassState :=
  if st.can_save then
    if rk name then
      { st with renders := st.renders ++ [filename],
                files := addFile st.files filename,
                hashes := dictSet st.hashes filename spec_hash }
    else if filename ∈ st.files then
      { st with renders := st.renders ++ [filename], can_save := false }
    else
      { st with renders := st.renders ++ [filename], can_save := false,
                files := addFile st.files filename,
                copies := st.copies ++ [filename] }
  else if filename ∈ st.files then st
  else { st with files := addFile st.files filename,
                 copies := st.copies ++ [filename] }

/-- Lines 189-202: the thumbnail step, executed for every example that was not
skipped by the hash check.  A malformed percentage string makes `int()` raise. -/
def thumbPhase (mk : Bool) (st : PassState) (ex : GalleryExample) :
    Except PassError PassState :=
  if mk then
    match zoomOf ex with
    | some z => .ok { st with thumbs := st.thumbs ++ [(ex.name ++ "-thumb.png", z)] }
    | none => .error .badPercent
  else .ok st

/-- The body of the `for example in iter_examples_with_metadata()` loop
(lines 164-202): skip when the ledger entry matches the spec hash
(`hashes.get(filename, '') == spec_hash`), otherwise render-or-fallback and
then the thumbnail step. -/
def processExample (mk : Bool) (rk : String → Bool) (st : PassState)
    (ex : GalleryExample) : Except PassError PassState :=
  if dictGet st.hashes (ex.name ++ ".png") "" = dict_hash ex.spec then .ok st
  else thumbPhase mk (renderPhase rk st ex.name (ex.name ++ ".png") (dict_hash ex.spec)) ex

/-- Sequential processing of the example list, propagating exceptions. -/
def runExamples (mk : Bool) (rk : String → Bool) (st : PassState) :
    List GalleryExample → Except PassError PassState
  | [] => .ok st
  | ex :: rest =>
    match processExample mk rk st ex with
    | .ok st' => runExamples mk rk st' rest
    | .error e => .error e

/-- Result of a whole pass: the final state and the contents written to the
ledger file at the end (`none` when no write occurred). -/
structure PassResult where
  st : PassState
  written : Option (List (String × String))
deriving DecidableEq, Repr

/-- The initial loop state: the loaded ledger, the initial renderer
availability, the pre-existing image files, and no events yet. -/
def startPass (hashes0 : List (String × String)) (initial_files : List String)
    (can_save0 : Bool) : PassState :=
  { hashes := hashes0, can_save := can_save0, files := initial_files,
    renders := [], copies := [], thumbs := [] }

/-- Lines 204-207: `if hashes: json.dump(hashes, f)` — persist the in-memory
ledger only when it is non-empty. -/
def finishPass (res : Except PassError PassState) : Except PassError PassResult :=
  match res with
  | .error e => .error e
  | .ok stf =>
    .ok { st := stf, written := if stf.hashes = [] then none else some stf.hashes }

/-- `make_images` (lines 145-207): load the ledger, process every example,
then persist the ledger only when non-empty (`if hashes: json.dump(...)`).
Parameters: the example corpus, the prior state of the ledger file, the image
files already existing in the image directory, the initial renderer
availability (`Chart._png_output_available()`), the per-example render-success
oracle, and the `make_thumbnails` flag. -/
def make_images (examples : List GalleryExample) (ledger : LedgerFile)
    (initial_files : List String) (can_save0 : Bool) (rk : String → Bool)
    (mk : Bool) : Except PassError PassResult :=
  match loadLedger ledger with
  | .error e => .error e
  | .ok hashes0 =>
    finishPass (runExamples mk rk (startPass hashes0 initial_files can_save0) examples)

/-! ### Association-list (Python dict) lemmas -/

theorem dictFind_dictSet_self (m : List (String × String)) (k v : String) :
    dictFind (dictSet m k v) k = some v := by
  induction m with
  | nil => simp [dictSet, dictFind]
  | cons p rest ih =>
    by_cases h : p.1 = k
    · simp [dictSet, h, dictFind]
    · simp [dictSet, h, dictFind, ih]

theorem dictFind_dictSet_ne (m : List (String × String)) (k k' v : String)
    (h : k ≠ k') : dictFind (dictSet m k' v) k = dictFind m k := by
  have h' : ¬(k' = k) := fun hh => h hh.symm
  induction m with
  | nil => simp [dictSet, dictFind, h']
  | cons p rest ih =>
    by_cases hp : p.1 = k'
    · rw [dictSet, if_pos hp, dictFind, if_neg h', dictFind, hp, if_neg h']
    · rw [dictSet, if_neg hp, dictFind, dictFind, ih]

theorem dictFind_dictSet_isSome (m : List (String × String)) (k k' v : String)
    (h : (dictFind m k).isSome) : (dictFind (dictSet m k' v) k).isSome := by
  by_cases hk : k = k'
  · subst hk; rw [dictFind_dictSet_self]; rfl
  · rw [dictFind_dictSet_ne m k k' v hk]; exact h

theorem dictSet_ne_nil (m : List (String × String)) (k v : String) :
    dictSet m k v ≠ [] := by
  cases m with
  | nil => simp [dictSet]
  | cons p rest => by_cases h : p.1 = k <;> simp [dictSet, h]

theorem ne_nil_of_dictFind_isSome (m : List (String × String)) (k : String)
    (h : (dictFind m k).isSome) : m ≠ [] := by
  intro hm
  subst hm
  simp [dictFind] at h

/-! ### Phase characterization lemmas -/

theorem renderPhase_success (rk : String → Bool) (st : PassState)
    (n f sh : String) (hcs : st.can_save = true) (hok : rk n = true) :
    renderPhase rk st n f sh =
      { st with renders := st.renders ++ [f],
                files := addFile st.files f,
                hashes := dictSet st.hashes f sh } := by
  unfold renderPhase
  rw [hcs, hok]
  rfl

theorem renderPhase_fail (rk : String → Bool) (st : PassState)
    (n f sh : String) (hcs : st.can_save = true) (hfail : rk n = false) :
    (renderPhase rk st n f sh).hashes = st.hashes ∧
    (renderPhase rk st n f sh).can_save = false ∧
    (renderPhase rk st n f sh).renders = st.renders ++ [f] := by
  unfold renderPhase
  rw [hcs, hfail]
  simp only [eq_self_iff_true, if_true, Bool.false_eq_true, if_false]
  split
  · exact ⟨rfl, rfl, rfl⟩
  · exact ⟨rfl, rfl, rfl⟩

theorem renderPhase_unavailable (rk : String → Bool) (st : PassState)
    (n f sh : String) (hcs : st.can_save = false) :
    (renderPhase rk st n f sh).hashes = st.hashes ∧
    (renderPhase rk st n f sh).can_save = false ∧
    (renderPhase rk st n f sh).renders = st.renders := by
  unfold renderPhase
  rw [hcs]
  simp only [Bool.false_eq_true, if_false]
  split
  · exact ⟨rfl, hcs, rfl⟩
  · exact ⟨rfl, rfl, rfl⟩

theorem renderPhase_hashes_cases (rk : String → Bool) (st : PassState)
    (n f sh : String) :
    (renderPhase rk st n f sh).hashes = st.hashes ∨
    (renderPhase rk st n f sh).hashes = dictSet st.hashes f sh := by
  unfold renderPhase
  split
  · split
    · right; rfl
    · split <;> simp
  · split <;> simp

theorem renderPhase_thumbs (rk : String → Bool) (st : PassState)
    (n f sh : String) : (renderPhase rk st n f sh).thumbs = st.thumbs := by
  unfold renderPhase
  split
  · split
    · rfl
    · split <;> rfl
  · split <;> rfl

theorem renderPhase_copies (rk : String → Bool) (st : PassState)
    (n f sh : String) (x : String)
    (hx : x ∈ (renderPhase rk st n f sh).copies) :
    x ∈ st.copies ∨ x ∉ st.files := by
  unfold renderPhase at hx
  split at hx
  · split at hx
    · left; exact hx
    · split at hx
      · left; exact hx
      · next hmem =>
        simp only [List.mem_append, List.mem_singleton] at hx
        rcases hx with h1 | h1
        · left; exact h1
        · right; rw [h1]; exact hmem
  · split at hx
    · left; exact hx
    · next hmem =>
      simp only [List.mem_append, List.mem_singleton] at hx
      rcases hx with h1 | h1
      · left; exact h1
      · right; rw [h1]; exact hmem

theorem thumbPhase_ok (mk : Bool) (st : PassState) (ex : GalleryExample)
    (st' : PassState) (h : thumbPhase mk st ex = .ok st') :
    st'.hashes = st.hashes ∧ st'.can_save = st.can_save ∧
    st'.renders = st.renders ∧ st'.copies = st.copies ∧ st'.files = st.files := by
  unfold thumbPhase at h
  split at h
  · cases hz : zoomOf ex with
    | some z =>
      rw [hz] at h
      simp only [Except.ok.injEq] at h
      subst h
      exact ⟨rfl, rfl, rfl, rfl, rfl⟩
    | none => rw [hz] at h; cases h
  · simp only [Except.ok.injEq] at h
    subst h
    exact ⟨rfl, rfl, rfl, rfl, rfl⟩

theorem thumbPhase_thumbs (st : PassState) (ex : GalleryExample)
    (st' : PassState) (h : thumbPhase true st ex = .ok st') :
    ∃ z, zoomOf ex = some z ∧ st'.thumbs = st.thumbs ++ [(ex.name ++ "-thumb.png", z)] := by
  unfold thumbPhase at h
  cases hz : zoomOf ex with
  | some z =>
    rw [if_pos rfl, hz] at h
    simp only [Except.ok.injEq] at h
    subst h
    exact ⟨z, rfl, rfl⟩
  | none => rw [if_pos rfl, hz] at h; cases h

/-! ### Step-level and run-level lemmas -/

theorem processExample_hashes_cases (mk : Bool) (rk : String → Bool)
    (st st' : PassState) (ex : GalleryExample)
    (h : processExample mk rk st ex = .ok st') :
    st'.hashes = st.hashes ∨
    st'.hashes = dictSet st.hashes (ex.name ++ ".png") (dict_hash ex.spec) := by
  unfold processExample at h
  by_cases hskip : dictGet st.hashes (ex.name ++ ".png") "" = dict_hash ex.spec
  · rw [if_pos hskip] at h
    simp only [Except.ok.injEq] at h
    subst h
    left; rfl
  · rw [if_neg hskip] at h
    have ht := (thumbPhase_ok _ _ _ _ h).1
    rcases renderPhase_hashes_cases rk st ex.name (ex.name ++ ".png") (dict_hash ex.spec)
      with hr | hr
    · left; exact ht.trans hr
    · right; exact ht.trans hr

theorem processExample_key_preserved (mk : Bool) (rk : String → Bool)
    (st st' : PassState) (ex : GalleryExample) (k : String)
    (h : processExample mk rk st ex = .ok st')
    (hk : (dictFind st.hashes k).isSome) : (dictFind st'.hashes k).isSome := by
  rcases processExample_hashes_cases mk rk st st' ex h with h1 | h1 <;> rw [h1]
  · exact hk
  · exact dictFind_dictSet_isSome _ _ _ _ hk

theorem processExample_unavailable (mk : Bool) (rk : String → Bool)
    (st st' : PassState) (ex : GalleryExample)
    (hcs : st.can_save = false)
    (h : processExample mk rk st ex = .ok st') :
    st'.can_save = false ∧ st'.renders = st.renders := by
  unfold processExample at h
  by_cases hskip : dictGet st.hashes (ex.name ++ ".png") "" = dict_hash ex.spec
  · rw [if_pos hskip] at h
    simp only [Except.ok.injEq] at h
    subst h
    exact ⟨hcs, rfl⟩
  · rw [if_neg hskip] at h
    have ht := thumbPhase_ok _ _ _ _ h
    have hr := renderPhase_unavailable rk st ex.name (ex.name ++ ".png") (dict_hash ex.spec) hcs
    exact ⟨ht.2.1.trans hr.2.1, ht.2.2.1.trans hr.2.2⟩

theorem runExamples_unavailable (mk : Bool) (rk : String → Bool)
    (exs : List GalleryExample) : ∀ st stf : PassState, st.can_save = false →
    runExamples mk rk st exs = .ok stf →
    stf.can_save = false ∧ stf.renders = st.renders := by
  induction exs with
  | nil =>
    intro st stf hcs h
    unfold runExamples at h
    simp only [Except.ok.injEq] at h
    subst h
    exact ⟨hcs, rfl⟩
  | cons ex rest ih =>
    intro st stf hcs h
    unfold runExamples at h
    cases hp : processExample mk rk st ex with
    | ok st1 =>
      rw [hp] at h
      have hs := processExample_unavailable mk rk st st1 ex hcs hp
      have hrest := ih st1 stf hs.1 h
      exact ⟨hrest.1, hrest.2.trans hs.2⟩
    | error e => rw [hp] at h; cases h

theorem runExamples_key_preserved (mk : Bool) (rk : String → Bool)
    (exs : List GalleryExample) : ∀ (st stf : PassState) (k : String),
    (dictFind st.hashes k).isSome →
    runExamples mk rk st exs = .ok stf → (dictFind stf.hashes k).isSome := by
  induction exs with
  | nil =>
    intro st stf k hk h
    unfold runExamples at h
    simp only [Except.ok.injEq] at h
    subst h
    exact hk
  | cons ex rest ih =>
    intro st stf k hk h
    unfold runExamples at h
    cases hp : processExample mk rk st ex with
    | ok st1 =>
      rw [hp] at h
      exact ih st1 stf k (processExample_key_preserved mk rk st st1 ex k hp hk) h
    | error e => rw [hp] at h; cases h

theorem processExample_hashes_ne_nil (mk : Bool) (rk : String → Bool)
    (st st' : PassState) (ex : GalleryExample)
    (h : processExample mk rk st ex = .ok st') (hne : st.hashes ≠ []) :
    st'.hashes ≠ [] := by
  rcases processExample_hashes_cases mk rk st st' ex h with h1 | h1 <;> rw [h1]
  · exact hne
  · exact dictSet_ne_nil _ _ _

theorem runExamples_hashes_ne_nil (mk : Bool) (rk : String → Bool)
    (exs : List GalleryExample) : ∀ st stf : PassState, st.hashes ≠ [] →
    runExamples mk rk st exs = .ok stf → stf.hashes ≠ [] := by
  induction exs with
  | nil =>
    intro st stf hne h
    unfold runExamples at h
    simp only [Except.ok.injEq] at h
    subst h
    exact hne
  | cons ex rest ih =>
    intro st stf hne h
    unfold runExamples at h
    cases hp : processExample mk rk st ex with
    | ok st1 =>
      rw [hp] at h
      exact ih st1 stf (processExample_hashes_ne_nil mk rk st st1 ex hp hne) h
    | error e => rw [hp] at h; cases h

/-! ### String lemmas for the percentage parsing -/

theorem dropWhile_eq_self_of_all (p : Char → Bool) :
    ∀ l : List Char, (∀ c ∈ l, p c = false) → l.dropWhile p = l
  | [], _ => rfl
  | c :: l, h => by
    rw [List.dropWhile_cons, h c (List.mem_cons_self c l)]
    simp

theorem stripAux (l : List Char) (hne : l ≠ [])
    (hs : ∀ c ∈ l, (c == '%') = false) :
    (((l ++ ['%']).dropWhile (· == '%')).reverse.dropWhile (· == '%')).reverse = l := by
  cases l with
  | nil => exact absurd rfl hne
  | cons c cs =>
    have hc : (c == '%') = false := hs c (List.mem_cons_self c cs)
    rw [List.cons_append, List.dropWhile_cons, hc]
    simp only [Bool.false_eq_true, if_false]
    rw [List.reverse_cons, List.reverse_append]
    rw [show (['%'] : List Char).reverse = ['%'] from rfl]
    rw [List.cons_append, List.nil_append, List.cons_append, List.dropWhile_cons]
    rw [show (('%' == '%') : Bool) = true from rfl]
    simp only [if_true]
    rw [dropWhile_eq_self_of_all (· == '%') (cs.reverse ++ [c]) ?_]
    · rw [List.reverse_append, List.reverse_reverse]
      rfl
    · intro x hx
      rcases List.mem_append.1 hx with h1 | h1
      · exact hs x (List.mem_cons_of_mem c (List.mem_reverse.1 h1))
      · rw [List.mem_singleton.1 h1]; exact hc

theorem stripPct_append_pct (s : String) (hne : s.data ≠ [])
    (hs : ∀ c ∈ s.data, (c == '%') = false) : stripPct (s ++ "%") = s := by
  unfold stripPct
  rw [String.data_append]
  rw [show (("%" : String).data) = ['%'] from rfl]
  rw [stripAux s.data hne hs]

theorem append_pct_ne_contains (s : String) : s ++ "%" ≠ "contains" := by
  intro h
  have hd : (s ++ "%").data = ("contains" : String).data := congrArg String.data h
  rw [String.data_append, show (("%" : String).data) = ['%'] from rfl] at hd
  have h1 : (s.data ++ ['%']).getLast? = (("contains" : String).data).getLast? :=
    congrArg List.getLast? hd
  rw [List.getLast?_concat] at h1
  exact absurd h1 (by decide)

/-! ### Zoom derivation lemmas -/

theorem zoomOf_no_param (ex : GalleryExample)
    (h : dictFind ex.galleryParameters "backgroundSize" = none) :
    zoomOf ex = some 1 := by
  unfold zoomOf dictGet
  rw [h]
  simp only [Option.getD_none]
  rw [if_neg (by decide : ¬(("100%" : String) = "contains"))]
  unfold convert_pct
  have h1 : parseInt (stripPct "100%") = some 100 := by decide
  rw [h1]
  norm_num

theorem zoomOf_contains (ex : GalleryExample)
    (h : dictFind ex.galleryParameters "backgroundSize" = some "contains") :
    zoomOf ex = some 1 := by
  unfold zoomOf dictGet
  rw [h]
  simp only [Option.getD_some, if_true]
  unfold convert_pct
  have h1 : parseInt (stripPct "100%") = some 100 := by decide
  rw [h1]
  norm_num

theorem zoomOf_pct (ex : GalleryExample) (s : String) (n : ℤ)
    (h : dictFind ex.galleryParameters "backgroundSize" = some (s ++ "%"))
    (hne : s.data ≠ []) (hs : ∀ c ∈ s.data, (c == '%') = false)
    (hn : parseInt s = some n) :
    zoomOf ex = some ((n : ℚ) / 100) := by
  unfold zoomOf dictGet
  rw [h]
  simp only [Option.getD_some]
  rw [if_neg (append_pct_ne_contains s)]
  unfold convert_pct
  rw [stripPct_append_pct s hne hs, hn]
  rfl

/-! ### Claim theorems -/

/-- C1, counterexample: with a present-but-corrupt ledger file, `make_images`
does not degrade to an empty ledger — the pass fails with the load error,
refuting the claim that every state of the ledger file is recovered from. -/
theorem corrupt_ledger_fails_pass :
    make_images [] LedgerFile.corrupt [] true (fun _ => true) true =
      Except.error PassError.ledgerCorrupt := rfl

/-- C1, amended: loading the ledger handles only the absent case — an absent
file behaves exactly like a present-and-empty ledger and the pass proceeds to
regenerate everything, while a present-but-corrupt/unreadable file makes the
JSON load raise and fails the whole pass. -/
theorem ledger_load_amended (exs : List GalleryExample) (fs : List String)
    (cs : Bool) (rk : String → Bool) (mk : Bool) :
    make_images exs LedgerFile.absent fs cs rk mk =
      make_images exs (LedgerFile.valid []) fs cs rk mk ∧
    make_images exs LedgerFile.corrupt fs cs rk mk =
      Except.error PassError.ledgerCorrupt :=
  ⟨rfl, rfl⟩

/-- C2: when the ledger entry for an example's output filename equals the
content hash of its specification, the loop body leaves the pass state
completely unchanged: no renderer invocation, no file write, no placeholder
copy, no ledger change and no thumbnail creation. -/
theorem skip_when_hash_matches (mk : Bool) (rk : String → Bool)
    (st : PassState) (ex : GalleryExample)
    (h : dictGet st.hashes (ex.name ++ ".png") "" = dict_hash ex.spec) :
    processExample mk rk st ex = .ok st := by
  unfold processExample
  rw [if_pos h]

/-- C2 witness: a concrete example whose ledger entry matches is skipped. -/
theorem skip_when_hash_matches_witness :
    processExample true (fun _ => true)
      { hashes := [("bar.png", "a=1;")], can_save := true, files := ["bar.png"],
        renders := [], copies := [], thumbs := [] }
      { name := "bar", spec := [("a","1")], galleryParameters := [] } =
    .ok { hashes := [("bar.png", "a=1;")], can_save := true, files := ["bar.png"],
          renders := [], copies := [], thumbs := [] } :=
  skip_when_hash_matches true (fun _ => true) _ _ (by decide)

/-- C7: the content hash of a specification document is order-independent:
documents with identical key/value pairs in different orders hash
identically. -/
theorem dict_hash_order_independent (s1 s2 : List (String × String))
    (h : s1.Perm s2) : dict_hash s1 = dict_hash s2 := by
  unfold dict_hash
  congr 1
  exact List.eq_of_perm_of_sorted
    ((List.perm_insertionSort _ _).trans ((h.map _).trans
      (List.perm_insertionSort _ _).symm))
    (List.sorted_insertionSort _ _) (List.sorted_insertionSort _ _)

/-- C7 witness: two concrete two-key documents in swapped order. -/
theorem dict_hash_order_independent_witness :
    dict_hash [("a","1"),("b","2")] = dict_hash [("b","2"),("a","1")] :=
  dict_hash_order_independent _ _ (List.Perm.swap _ _ _)

/-- C3: for an example that is not skipped, when the renderer is available and
the external render call succeeds, the in-memory ledger entry for the
example's output filename is updated to the newly computed content hash of its
specification (and the renderer was invoked exactly once for it). -/
theorem ledger_updated_on_success (mk : Bool) (rk : String → Bool)
    (st st' : PassState) (ex : GalleryExample)
    (hcs : st.can_save = true)
    (hmiss : dictGet st.hashes (ex.name ++ ".png") "" ≠ dict_hash ex.spec)
    (hok : rk ex.name = true)
    (h : processExample mk rk st ex = .ok st') :
    dictFind st'.hashes (ex.name ++ ".png") = some (dict_hash ex.spec) ∧
    st'.renders = st.renders ++ [ex.name ++ ".png"] := by
  unfold processExample at h
  rw [if_neg hmiss] at h
  rw [renderPhase_success rk st ex.name (ex.name ++ ".png") (dict_hash ex.spec)
    hcs hok] at h
  have ht := thumbPhase_ok _ _ _ _ h
  have h1 : st'.hashes = dictSet st.hashes (ex.name ++ ".png") (dict_hash ex.spec) :=
    ht.1
  have h2 : st'.renders = st.renders ++ [ex.name ++ ".png"] := ht.2.2.1
  constructor
  · rw [h1]; exact dictFind_dictSet_self _ _ _
  · exact h2

/-- C3 witness: a concrete successful render updates the ledger entry. -/
theorem ledger_updated_on_success_witness :
    dictFind [("bar.png", "a=1;")] "bar.png" = some "a=1;" ∧
    (["bar.png"] : List String) = [] ++ ["bar.png"] :=
  ledger_updated_on_success false (fun _ => true)
    { hashes := [], can_save := true, files := [], renders := [], copies := [],
      thumbs := [] }
    { hashes := [("bar.png", "a=1;")], can_save := true, files := ["bar.png"],
      renders := ["bar.png"], copies := [], thumbs := [] }
    { name := "bar", spec := [("a","1")], galleryParameters := [] }
    rfl (by decide) rfl rfl

/-- C4: a placeholder copy happens only at a path where no image file exists:
every filename placeholder-copied during a loop step either was already in the
copy log or had no existing image file; an existing image is never overwritten
by the placeholder. -/
theorem placeholder_never_overwrites (mk : Bool) (rk : String → Bool)
    (st st' : PassState) (ex : GalleryExample)
    (h : processExample mk rk st ex = .ok st') :
    ∀ x, x ∈ st'.copies → x ∈ st.copies ∨ x ∉ st.files := by
  intro x hx
  unfold processExample at h
  by_cases hskip : dictGet st.hashes (ex.name ++ ".png") "" = dict_hash ex.spec
  · rw [if_pos hskip] at h
    simp only [Except.ok.injEq] at h
    subst h
    left; exact hx
  · rw [if_neg hskip] at h
    have ht := (thumbPhase_ok _ _ _ _ h).2.2.2.1
    rw [ht] at hx
    exact renderPhase_copies rk st ex.name (ex.name ++ ".png") (dict_hash ex.spec) x hx

/-- C4 witness: a concrete placeholder copy at a path with no existing file. -/
theorem placeholder_never_overwrites_witness :
    "bar.png" ∈ ([] : List String) ∨ "bar.png" ∉ ([] : List String) :=
  placeholder_never_overwrites false (fun _ => true)
    { hashes := [], can_save := false, files := [], renders := [], copies := [],
      thumbs := [] }
    { hashes := [], can_save := false, files := ["bar.png"], renders := [],
      copies := ["bar.png"], thumbs := [] }
    { name := "bar", spec := [("a","1")], galleryParameters := [] }
    rfl "bar.png" (by decide)

/-- C5: after the first detected renderer failure in a pass, the renderer is
never invoked again in that pass: processing any remaining examples adds no
renderer invocation beyond the failed one, and the availability flag stays
off. -/
theorem no_retry_after_failure (mk : Bool) (rk : String → Bool)
    (st st1 stf : PassState) (ex : GalleryExample) (rest : List GalleryExample)
    (hcs : st.can_save = true)
    (hmiss : dictGet st.hashes (ex.name ++ ".png") "" ≠ dict_hash ex.spec)
    (hfail : rk ex.name = false)
    (h1 : processExample mk rk st ex = .ok st1)
    (h2 : runExamples mk rk st1 rest = .ok stf) :
    stf.can_save = false ∧ stf.renders = st.renders ++ [ex.name ++ ".png"] := by
  unfold processExample at h1
  rw [if_neg hmiss] at h1
  have ht := thumbPhase_ok _ _ _ _ h1
  have hr := renderPhase_fail rk st ex.name (ex.name ++ ".png") (dict_hash ex.spec)
    hcs hfail
  have hcs1 : st1.can_save = false := ht.2.1.trans hr.2.1
  have hren1 : st1.renders = st.renders ++ [ex.name ++ ".png"] := ht.2.2.1.trans hr.2.2
  have hrun := runExamples_unavailable mk rk rest st1 stf hcs1 h2
  exact ⟨hrun.1, hrun.2.trans hren1⟩

/-- C5 witness: one failing render followed by one more example — the second
example triggers no renderer invocation. -/
theorem no_retry_after_failure_witness :
    false = false ∧ (["bar.png"] : List String) = [] ++ ["bar.png"] :=
  no_retry_after_failure false (fun _ => false)
    { hashes := [], can_save := true, files := [], renders := [], copies := [],
      thumbs := [] }
    { hashes := [], can_save := false, files := ["bar.png"], renders := ["bar.png"],
      copies := ["bar.png"], thumbs := [] }
    { hashes := [], can_save := false, files := ["bar.png", "baz.png"],
      renders := ["bar.png"], copies := ["bar.png", "baz.png"], thumbs := [] }
    { name := "bar", spec := [("a","1")], galleryParameters := [] }
    [{ name := "baz", spec := [("b","2")], galleryParameters := [] }]
    rfl (by decide) rfl rfl rfl

/-- C9: when the render attempt for an example fails with a process error, the
in-memory ledger is left exactly as it was — the entry for that example's
output filename is neither added nor updated. -/
theorem ledger_unchanged_on_failure (mk : Bool) (rk : String → Bool)
    (st st' : PassState) (ex : GalleryExample)
    (hcs : st.can_save = true) (hfail : rk ex.name = false)
    (h : processExample mk rk st ex = .ok st') :
    st'.hashes = st.hashes := by
  unfold processExample at h
  by_cases hskip : dictGet st.hashes (ex.name ++ ".png") "" = dict_hash ex.spec
  · rw [if_pos hskip] at h
    simp only [Except.ok.injEq] at h
    subst h; rfl
  · rw [if_neg hskip] at h
    have ht := (thumbPhase_ok _ _ _ _ h).1
    exact ht.trans
      (renderPhase_fail rk st ex.name (ex.name ++ ".png") (dict_hash ex.spec)
        hcs hfail).1

/-- C9 witness: a concrete failing render leaves the ledger untouched. -/
theorem ledger_unchanged_on_failure_witness :
    ([("other.png", "h0")] : List (String × String)) = [("other.png", "h0")] :=
  ledger_unchanged_on_failure false (fun _ => false)
    { hashes := [("other.png", "h0")], can_save := true, files := [], renders := [],
      copies := [], thumbs := [] }
    { hashes := [("other.png", "h0")], can_save := false, files := ["bar.png"],
      renders := ["bar.png"], copies := ["bar.png"], thumbs := [] }
    { name := "bar", spec := [("a","1")], galleryParameters := [] }
    rfl rfl rfl

/-- C6: at the end of a pass the ledger file is written iff the in-memory
ledger is non-empty; when written, the contents are exactly the in-memory
ledger; and a pass that loaded a non-empty valid ledger always ends with a
write, so an empty ledger never replaces a previously non-empty one. -/
theorem ledger_persist_iff_nonempty (exs : List GalleryExample)
    (ledger : LedgerFile) (fs : List String) (cs : Bool) (rk : String → Bool)
    (mk : Bool) (r : PassResult)
    (h : make_images exs ledger fs cs rk mk = .ok r) :
    (r.written = none ↔ r.st.hashes = []) ∧
    (r.st.hashes ≠ [] → r.written = some r.st.hashes) ∧
    (∀ e, ledger = LedgerFile.valid e → e ≠ [] →
      r.written = some r.st.hashes) := by
  unfold make_images at h
  cases hl : loadLedger ledger with
  | error e0 => rw [hl] at h; cases h
  | ok hashes0 =>
    rw [hl] at h
    change finishPass (runExamples mk rk (startPass hashes0 fs cs) exs) = .ok r at h
    cases hrun : runExamples mk rk (startPass hashes0 fs cs) exs with
    | error e1 => rw [hrun] at h; simp [finishPass] at h
    | ok stf =>
      rw [hrun] at h
      simp only [finishPass, Except.ok.injEq] at h
      subst h
      by_cases he : stf.hashes = []
      · refine ⟨?_, ?_, ?_⟩
        · simp [he]
        · intro hne; exact absurd he hne
        · intro e hle hene
          subst hle
          simp only [loadLedger, Except.ok.injEq] at hl
          subst hl
          have hne0 : stf.hashes ≠ [] :=
            runExamples_hashes_ne_nil mk rk exs (startPass e fs cs) stf hene hrun
          exact absurd he hne0
      · exact ⟨by simp [he], fun _ => by simp [he], fun e hle hene => by simp [he]⟩

/-- C6 witness: a pass over no examples with a non-empty loaded ledger ends by
writing that ledger back. -/
theorem ledger_persist_iff_nonempty_witness :
    ((some [("a.png", "h1")] : Option (List (String × String))) = none ↔
      ([("a.png", "h1")] : List (String × String)) = []) ∧
    (([("a.png", "h1")] : List (String × String)) ≠ [] →
      (some [("a.png", "h1")] : Option (List (String × String))) =
        some [("a.png", "h1")]) ∧
    (∀ e, LedgerFile.valid [("a.png", "h1")] = LedgerFile.valid e → e ≠ [] →
      (some [("a.png", "h1")] : Option (List (String × String))) =
        some [("a.png", "h1")]) :=
  ledger_persist_iff_nonempty [] (LedgerFile.valid [("a.png", "h1")]) [] true
    (fun _ => true) false
    { st := { hashes := [("a.png", "h1")], can_save := true, files := [],
              renders := [], copies := [], thumbs := [] },
      written := some [("a.png", "h1")] }
    rfl

/-- C8: for every example not skipped by the hash check, with thumbnails
requested, a thumbnail named `<example-name>-thumb.png` is produced, with zoom
derived from the optional `backgroundSize` parameter: absent defaults to 1
(100%), the alias `'contains'` gives 1, and a percentage numeral `"N%"` gives
N/100. -/
theorem thumbnail_zoom (rk : String → Bool) (st st' : PassState)
    (ex : GalleryExample)
    (hmiss : dictGet st.hashes (ex.name ++ ".png") "" ≠ dict_hash ex.spec)
    (h : processExample true rk st ex = .ok st') :
    ∃ z, zoomOf ex = some z ∧
      st'.thumbs = st.thumbs ++ [(ex.name ++ "-thumb.png", z)] ∧
      (dictFind ex.galleryParameters "backgroundSize" = none → z = 1) ∧
      (dictFind ex.galleryParameters "backgroundSize" = some "contains" → z = 1) ∧
      (∀ (s : String) (n : ℤ),
        dictFind ex.galleryParameters "backgroundSize" = some (s ++ "%") →
        s.data ≠ [] → (∀ c ∈ s.data, (c == '%') = false) → parseInt s = some n →
        z = (n : ℚ) / 100) := by
  unfold processExample at h
  rw [if_neg hmiss] at h
  obtain ⟨z, hz, hth⟩ := thumbPhase_thumbs _ _ _ h
  refine ⟨z, hz, ?_, ?_, ?_, ?_⟩
  · rw [hth, renderPhase_thumbs]
  · intro hp
    have hv := zoomOf_no_param ex hp
    rw [hz] at hv
    exact Option.some.inj hv
  · intro hp
    have hv := zoomOf_contains ex hp
    rw [hz] at hv
    exact Option.some.inj hv
  · intro s n hp hne hs hn
    have hv := zoomOf_pct ex s n hp hne hs hn
    rw [hz] at hv
    exact Option.some.inj hv

/-- C8 witness: a concrete example with `backgroundSize` = `"50%"` gets a
thumbnail named `bar-thumb.png` with zoom 50/100. -/
theorem thumbnail_zoom_witness :
    ∃ z, zoomOf (GalleryExample.mk "bar" [("a","1")] [("backgroundSize", "50%")]) =
        some z ∧
      ([("bar-thumb.png", ((50 : ℤ) : ℚ) / 100)] : List (String × ℚ)) =
        [] ++ [("bar" ++ "-thumb.png", z)] ∧
      (dictFind [("backgroundSize", "50%")] "backgroundSize" = none → z = 1) ∧
      (dictFind [("backgroundSize", "50%")] "backgroundSize" = some "contains" →
        z = 1) ∧
      (∀ (s : String) (n : ℤ),
        dictFind [("backgroundSize", "50%")] "backgroundSize" = some (s ++ "%") →
        s.data ≠ [] → (∀ c ∈ s.data, (c == '%') = false) → parseInt s = some n →
        z = (n : ℚ) / 100) :=
  thumbnail_zoom (fun _ => true)
    { hashes := [], can_save := true, files := [], renders := [], copies := [],
      thumbs := [] }
    { hashes := [("bar.png", "a=1;")], can_save := true, files := ["bar.png"],
      renders := ["bar.png"], copies := [],
      thumbs := [("bar-thumb.png", ((50 : ℤ) : ℚ) / 100)] }
    { name := "bar", spec := [("a","1")],
      galleryParameters := [("backgroundSize", "50%")] }
    (by decide) rfl

/-- C10: the ledger only grows: every entry of the valid ledger loaded at the
start of a pass is still present (with some value) in the final in-memory
ledger, and the ledger file written at the end contains exactly that final
ledger — entries are never deleted. -/
theorem ledger_only_grows (exs : List GalleryExample)
    (e : List (String × String)) (fs : List String) (cs : Bool)
    (rk : String → Bool) (mk : Bool) (r : PassResult) (k v : String)
    (h : make_images exs (LedgerFile.valid e) fs cs rk mk = .ok r)
    (hk : dictFind e k = some v) :
    (∃ v', dictFind r.st.hashes k = some v') ∧ r.written = some r.st.hashes := by
  unfold make_images at h
  change finishPass (runExamples mk rk (startPass e fs cs) exs) = .ok r at h
  cases hrun : runExamples mk rk (startPass e fs cs) exs with
  | error e1 => rw [hrun] at h; simp [finishPass] at h
  | ok stf =>
    rw [hrun] at h
    simp only [finishPass, Except.ok.injEq] at h
    subst h
    have hk0 : (dictFind (startPass e fs cs).hashes k).isSome := by
      simp [startPass, hk]
    have hkf := runExamples_key_preserved mk rk exs (startPass e fs cs) stf k hk0 hrun
    have hne : stf.hashes ≠ [] := by
      intro hnil
      rw [hnil] at hkf
      simp [dictFind] at hkf
    constructor
    · cases hf : dictFind stf.hashes k with
      | some v' => exact ⟨v', rfl⟩
      | none => rw [hf] at hkf; simp at hkf
    · simp [hne]

/-- C10 witness: a pass that renders one new example keeps the pre-existing
ledger entry and writes the grown ledger. -/
theorem ledger_only_grows_witness :
    (∃ v', dictFind [("old.png", "h0"), ("bar.png", "a=1;")] "old.png" = some v') ∧
    (some [("old.png", "h0"), ("bar.png", "a=1;")] :
        Option (List (String × String))) =
      some [("old.png", "h0"), ("bar.png", "a=1;")] :=
  ledger_only_grows [{ name := "bar", spec := [("a","1")], galleryParameters := [] }]
    [("old.png", "h0")] [] true (fun _ => true) false
    { st := { hashes := [("old.png", "h0"), ("bar.png", "a=1;")], can_save := true,
              files := ["bar.png"], renders := ["bar.png"], copies := [],
              thumbs := [] },
      written := some [("old.png", "h0"), ("bar.png", "a=1;")] }
    "old.png" "h0" rfl rfl

end AltairGallery
